import Mathlib

/-!
Shallow embedding of `py4DSTEM/process/datastructure/pointlist.py`
(classes `PointList` and `PointListArray`) and proofs about the claims
of the natural-language specification.

Modelling conventions:
* A structured numpy dtype is modelled as an ordered list of
  (field name, field type) pairs.  Field types `DT` form an inductive
  type: the atomic numeric dtypes (`float`, `int`) plus `struct`, which
  packages a whole structured dtype as a field type.  The `struct`
  constructor is needed because `PointList.copy` passes the structured
  dtype of the source as the `dtype` keyword argument of the
  constructor, and the constructor pairs that value with each field
  name when the coordinates are given as bare name strings.
* Row values are modelled as integers; numeric coercion of a value to
  an atomic dtype is modelled as the identity (the claims never depend
  on floating point rounding), and coercion of a flat scalar into a
  nested `struct` field type is modelled as a failure.  No claim is
  settled through the nested-coercion branch.
* Python exceptions are modelled by `Except`.  Methods that mutate the
  receiver in place return the new receiver state; when such a method
  raises, the error value carries the receiver state at the moment of
  the raise, so that partial mutation is observable.
* `numpy.delete` with an index list is modelled as: raise when some
  index is out of range, otherwise drop exactly the listed positions.
* Python list indexing (used by `PointListArray.get_pointlist`) is
  modelled with the negative-wrapping rule of Python: an index `i < 0`
  addresses position `i + len`, and an index out of `[-len, len)`
  raises IndexError.
-/

namespace Py4DSTEM

mutual
/-- Field types of a structured dtype: atomic numeric dtypes plus the
`struct` constructor wrapping a whole structured dtype (field list). -/
inductive DT where
  | float : DT
  | int : DT
  | struct : FieldList → DT
inductive FieldList where
  | nil : FieldList
  | cons : String → DT → FieldList → FieldList
end

mutual
def DT.decEq : (a b : DT) → Decidable (a = b)
  | .float, .float => .isTrue rfl
  | .float, .int => .isFalse (fun h => DT.noConfusion h)
  | .float, .struct _ => .isFalse (fun h => DT.noConfusion h)
  | .int, .float => .isFalse (fun h => DT.noConfusion h)
  | .int, .int => .isTrue rfl
  | .int, .struct _ => .isFalse (fun h => DT.noConfusion h)
  | .struct _, .float => .isFalse (fun h => DT.noConfusion h)
  | .struct _, .int => .isFalse (fun h => DT.noConfusion h)
  | .struct fs, .struct gs =>
    match FieldList.decEq fs gs with
    | .isTrue h => .isTrue (h ▸ rfl)
    | .isFalse h => .isFalse (fun hh => h (DT.struct.inj hh))
def FieldList.decEq : (a b : FieldList) → Decidable (a = b)
  | .nil, .nil => .isTrue rfl
  | .nil, .cons _ _ _ => .isFalse (fun h => FieldList.noConfusion h)
  | .cons _ _ _, .nil => .isFalse (fun h => FieldList.noConfusion h)
  | .cons n d fs, .cons m e gs =>
    match String.decEq n m with
    | .isFalse h => .isFalse (fun hh => h (FieldList.cons.inj hh).1)
    | .isTrue h1 =>
      match DT.decEq d e with
      | .isFalse h => .isFalse (fun hh => h (FieldList.cons.inj hh).2.1)
      | .isTrue h2 =>
        match FieldList.decEq fs gs with
        | .isFalse h => .isFalse (fun hh => h (FieldList.cons.inj hh).2.2)
        | .isTrue h3 => .isTrue (by rw [h1, h2, h3])
end

instance : DecidableEq DT := DT.decEq
instance : DecidableEq FieldList := FieldList.decEq

/-- Package an ordered field list as a `FieldList` (used when a whole
structured dtype is passed where a single field type is expected). -/
def FieldList.ofList : List (String × DT) → FieldList
  | [] => .nil
  | (n, d) :: rest => .cons n d (ofList rest)

/-- A structured dtype: the ordered (field name, field type) pairs. -/
abbrev Dtype := List (String × DT)

/-- One row of a point list: one value per field. -/
abbrev Row := List Int

/-- The kinds of Python exception the module can raise. -/
inductive Err where
  | assertionError : Err
  | indexError : Err
  | typeError : Err
deriving DecidableEq

/-- The `coordinates` constructor argument: either a list of bare field
names or a list of (name, dtype) pairs.  (Any other element shape makes
the source constructor raise TypeError; such inputs are outside the
model, no claim quantifies over them.) -/
inductive Coords where
  | names : List String → Coords
  | pairs : List (String × DT) → Coords
deriving DecidableEq

/-- The owner object (`parentDataCube`): the only properties this
module ever reads are the two real-space dimensions. -/
structure DataCube where
  R_Nx : Int
  R_Ny : Int
deriving DecidableEq

/-- State of a `PointList` instance: the stored constructor arguments,
the normalized structured dtype, the row store and the row counter. -/
structure PointList where
  coordinates : Coords
  parentDataCube : DataCube
  default_dtype : DT
  dtype : Dtype
  data : List Row
  length : Int
deriving DecidableEq

/-- Field names of a structured dtype, in order. -/
def fieldNames (dt : Dtype) : List String := dt.map Prod.fst

/-- Position of a field name in a structured dtype (first match). -/
def fieldIndex (name : String) : Dtype → Nat
  | [] => 0
  | (n, _) :: rest => if n = name then 0 else fieldIndex name rest + 1

/-- Value of the named field in a row. -/
def fieldVal (dt : Dtype) (name : String) (r : Row) : Int :=
  r.getD (fieldIndex name dt) 0

/-- Coercion of one value to one field type (`np.array(..., dtype=...)`
element behaviour): exact on atomic numeric dtypes, failing on nested
`struct` field types. -/
def npCastVal : DT → Int → Option Int
  | .float, v => some v
  | .int, v => some v
  | .struct _, _ => none

/-- Coercion of a whole row to a structured dtype, field by field. -/
def coerceRow : Dtype → Row → Option Row
  | [], [] => some []
  | (_, d) :: fs, v :: vs =>
    match npCastVal d v, coerceRow fs vs with
    | some w, some ws => some (w :: ws)
    | _, _ => none
  | [], _ :: _ => none
  | _ :: _, [] => none

/-- Normalization of the `coordinates` argument into the structured
dtype, mirroring the two branches of `PointList.__init__`.  Reading
`coordinates[0]` of an empty list raises IndexError. -/
def mkDtype : Coords → DT → Except Err Dtype
  | .names [], _ => .error .indexError
  | .names ns, d => .ok (ns.map (fun n => (n, d)))
  | .pairs [], _ => .error .indexError
  | .pairs ps, _ => .ok ps

/-- `PointList.add_point`: assert the arity, coerce the tuple to the
structured dtype, append it and bump the counter.  On failure the
receiver is unchanged (both checks precede the mutation). -/
def PointList.add_point (t : PointList) (point : Row) :
    Except (Err × PointList) PointList :=
  if point.length = t.dtype.length then
    match coerceRow t.dtype point with
    | some q =>
      .ok { t with data := t.data ++ [q], length := t.length + 1 }
    | none => .error (.typeError, t)
  else .error (.assertionError, t)

/-- The loop body of `PointList.add_pointarray`: repeated `add_point`,
stopping at the first failure and reporting the state reached. -/
def PointList.add_pointarray_go (t : PointList) :
    List Row → Except (Err × PointList) PointList
  | [] => .ok t
  | r :: rs =>
    match t.add_point r with
    | .ok t2 => t2.add_pointarray_go rs
    | .error e => .error e

/-- `PointList.add_pointarray`: read the first element of the batch
(IndexError on an empty batch), assert its arity against the dtype,
then append every row of the batch in order via `add_point`. -/
def PointList.add_pointarray (t : PointList) (pointarray : List Row) :
    Except (Err × PointList) PointList :=
  match pointarray with
  | [] => .error (.indexError, t)
  | r0 :: _ =>
    if r0.length = t.dtype.length then t.add_pointarray_go pointarray
    else .error (.assertionError, t)

/-- `PointList.__init__`: normalize the coordinates into the dtype,
start with an empty row store and counter 0, then bulk-append the
optional initial data.  A raise during the bulk append aborts the whole
construction. -/
def PointList.construct (coordinates : Coords) (parent : DataCube)
    (data : Option (List Row)) (dtype : DT) : Except Err PointList :=
  match mkDtype coordinates dtype with
  | .error e => .error e
  | .ok dt =>
    match data with
    | none => .ok ⟨coordinates, parent, dtype, dt, [], 0⟩
    | some rows =>
      match (PointList.mk coordinates parent dtype dt [] 0).add_pointarray rows with
      | .ok t => .ok t
      | .error (e, _) => .error e

/-- `PointList.add_pointlist`: assert dtype equality, then concatenate
the row stores and add the counters.  The argument list is only read. -/
def PointList.add_pointlist (t other : PointList) :
    Except (Err × PointList) PointList :=
  if t.dtype = other.dtype then
    .ok { t with data := t.data ++ other.data,
                 length := t.length + other.length }
  else .error (.assertionError, t)

/-- Lexicographic comparison of whole rows, used as the tie break of
the structured sort (numpy compares the remaining fields in dtype
order when the primary field values are equal). -/
def lexLe : Row → Row → Bool
  | [], _ => true
  | _ :: _, [] => false
  | a :: as_, b :: bs =>
    if a < b then true else if b < a then false else lexLe as_ bs

/-- Row comparison of `np.sort(..., order=coordinate)`: primary key is
the named field, ties broken by the remaining record. -/
def rowLe (idx : Nat) (r s : Row) : Bool :=
  if r.getD idx 0 < s.getD idx 0 then true
  else if s.getD idx 0 < r.getD idx 0 then false
  else lexLe r s

/-- Insertion into a sorted list (helper of the deterministic model of
`np.sort`). -/
def insertRow (le : Row → Row → Bool) (r : Row) : List Row → List Row
  | [] => [r]
  | s :: rest => if le r s then r :: s :: rest else s :: insertRow le r rest

/-- Deterministic model of `np.sort` on the row store: insertion sort
with the given comparison. -/
def npSort (le : Row → Row → Bool) : List Row → List Row
  | [] => []
  | r :: rest => insertRow le r (npSort le rest)

/-- `PointList.sort`: assert the coordinate is a field and the order
string is one of the two recognized values; ascending stores the
sorted array, descending stores the reversal of the same sorted
array. -/
def PointList.sort (t : PointList) (coordinate : String) (order : String) :
    Except (Err × PointList) PointList :=
  if coordinate ∈ fieldNames t.dtype then
    if order = "descending" || order = "ascending" then
      if order = "ascending" then
        .ok { t with
              data := npSort (rowLe (fieldIndex coordinate t.dtype)) t.data }
      else
        .ok { t with
              data := (npSort (rowLe (fieldIndex coordinate t.dtype)) t.data).reverse }
    else .error (.assertionError, t)
  else .error (.assertionError, t)

/-- One constraint of `get_subpointlist`: a (name, val) pair or a
(name, minval, maxval) triple.  (The length 2-or-3 assert of the source
is structural here.) -/
inductive Pred where
  | eq : String → Int → Pred
  | range : String → Int → Int → Pred
deriving DecidableEq

/-- The field a constraint refers to. -/
def Pred.field : Pred → String
  | .eq n _ => n
  | .range n _ _ => n

/-- The per-row delete condition a constraint contributes, exactly as
written in the source: a pair deletes rows whose field differs from
the value; a triple deletes rows whose field is below the minimum or
at or above the maximum. -/
def violates (dt : Dtype) : Pred → Row → Bool
  | .eq n v, r => fieldVal dt n r != v
  | .range n lo hi, r =>
    decide (fieldVal dt n r < lo) || decide (hi ≤ fieldVal dt n r)

/-- The delete-mask loop of `get_subpointlist`: for each constraint in
order, assert its field exists, then OR its delete condition into the
accumulated mask. -/
def buildDeletemask (t : PointList) :
    List Pred → List Bool → Except Err (List Bool)
  | [], mask => .ok mask
  | p :: ps, mask =>
    if p.field ∈ fieldNames t.dtype then
      buildDeletemask t ps
        (List.zipWith (fun a b => a || b) mask (t.data.map (violates t.dtype p)))
    else .error .assertionError

/-- Positions of the true entries of a boolean mask, starting at the
given index (`mask.nonzero()[0]`). -/
def trueIndicesAux (i : Nat) : List Bool → List Nat
  | [] => []
  | b :: m => (if b then [i] else []) ++ trueIndicesAux (i + 1) m

/-- Positions of the true entries of a boolean mask. -/
def trueIndices (mask : List Bool) : List Nat := trueIndicesAux 0 mask

/-- Drop the listed positions of a list, indices counted from `i`
(the in-range core of `np.delete`). -/
def npDeleteAux (i : Nat) : List Row → List Nat → List Row
  | [], _ => []
  | a :: l, idxs =>
    (if i ∈ idxs then [] else [a]) ++ npDeleteAux (i + 1) l idxs

/-- `PointList.remove_points`: no length check of the mask.  The true
positions of the mask are deleted (`np.delete` raises when a position
is out of range) and the counter is decremented by the number of true
entries of the whole mask. -/
def PointList.remove_points (t : PointList) (deletemask : List Bool) :
    Except (Err × PointList) PointList :=
  if ∀ i ∈ trueIndices deletemask, i < t.data.length then
    .ok { t with data := npDeleteAux 0 t.data (trueIndices deletemask),
                 length := t.length - (trueIndices deletemask).length }
  else .error (.indexError, t)

/-- `PointList.copy`: re-run the constructor with the stored
coordinates, the same parent, a copy of the row store as initial bulk
data, and the current structured dtype passed as the `dtype` keyword
argument. -/
def PointList.copy (t : PointList) : Except Err PointList :=
  PointList.construct t.coordinates t.parentDataCube (some t.data)
    (.struct (FieldList.ofList t.dtype))

/-- `PointList.get_subpointlist`: build the delete mask over the rows
of the receiver, copy the receiver, delete the marked rows of the copy
and return it.  The first component of the result is the state of the
receiver when the call returns or raises; the method body never
assigns a field of the receiver, it only reads it and mutates the
fresh copy. -/
def PointList.get_subpointlist (t : PointList) (coords_vals : List Pred) :
    PointList × Except Err PointList :=
  match buildDeletemask t coords_vals (List.replicate t.data.length false) with
  | .error e => (t, .error e)
  | .ok deletemask =>
    match t.copy with
    | .error e => (t, .error e)
    | .ok np =>
      match np.remove_points deletemask with
      | .error (e, _) => (t, .error e)
      | .ok np2 => (t, .ok np2)

/-- State of a `PointListArray` instance. -/
structure PointListArray where
  coordinates : Coords
  parentDataCube : DataCube
  default_dtype : DT
  shape : Int × Int
  pointlists : List (List PointList)
deriving DecidableEq

/-- `PointListArray.__init__`: when a shape is given it must have
exactly two entries (the source asserts it is a tuple of length 2 and
checks nothing else); when it is omitted the shape is read from the
owner.  The grid is a list comprehension instantiating one fresh empty
`PointList` per cell; `range` of a non-positive extent is empty.  All
cell constructions run with identical arguments, so the grid is
modelled by replication of the one constructed empty cell; a raise in
any cell construction aborts the whole constructor. -/
def PointListArray.construct (coordinates : Coords) (parent : DataCube)
    (shape : Option (List Int)) (dtype : DT) : Except Err PointListArray :=
  let shres : Except Err (Int × Int) :=
    match shape with
    | none => .ok (parent.R_Nx, parent.R_Ny)
    | some l =>
      if l.length = 2 then .ok (l.getD 0 0, l.getD 1 0)
      else .error .assertionError
  match shres with
  | .error e => .error e
  | .ok sh =>
    match PointList.construct coordinates parent none dtype with
    | .error e => .error e
    | .ok cell =>
      .ok { coordinates := coordinates, parentDataCube := parent,
            default_dtype := dtype, shape := sh,
            pointlists :=
              List.replicate sh.1.toNat (List.replicate sh.2.toNat cell) }

/-- Python list indexing: negative indices wrap once by the list
length; anything out of `[-len, len)` raises IndexError. -/
def pyIndex {α : Type} (l : List α) (i : Int) : Except Err α :=
  let k : Int := if i < 0 then i + l.length else i
  if k < 0 then .error .indexError
  else
    match l.get? k.toNat with
    | some a => .ok a
    | none => .error .indexError

/-- `PointListArray.get_pointlist`: plain double Python list
indexing, `self.pointlists[i][j]`. -/
def PointListArray.get_pointlist (g : PointListArray) (i j : Int) :
    Except Err PointList :=
  match pyIndex g.pointlists i with
  | .error e => .error e
  | .ok row => pyIndex row j

end Py4DSTEM

namespace Py4DSTEM

instance {ε α : Type} [DecidableEq ε] [DecidableEq α] : DecidableEq (Except ε α)
  | .ok a, .ok b =>
    if h : a = b then .isTrue (by rw [h])
    else .isFalse (fun hh => h (Except.ok.inj hh))
  | .ok _, .error _ => .isFalse (fun hh => Except.noConfusion hh)
  | .error _, .ok _ => .isFalse (fun hh => Except.noConfusion hh)
  | .error e, .error f =>
    if h : e = f then .isTrue (by rw [h])
    else .isFalse (fun hh => h (Except.error.inj hh))

def dc0 : DataCube := ⟨2, 3⟩

def plEmpty1f : PointList :=
  ⟨.pairs [("x", .float)], dc0, .float, [("x", .float)], [], 0⟩

def plTwoRows : PointList :=
  ⟨.pairs [("x", .float)], dc0, .float, [("x", .float)], [[1], [2]], 2⟩

def plEmpty2f : PointList :=
  ⟨.pairs [("x", .float), ("y", .float)], dc0, .float,
   [("x", .float), ("y", .float)], [], 0⟩

def grid34 : PointListArray :=
  ⟨.pairs [("x", .float)], dc0, .float, (3, 4),
   List.replicate 3 (List.replicate 4 plEmpty1f)⟩

def plThreeRows : PointList :=
  ⟨.pairs [("x", .float), ("y", .float)], dc0, .float,
   [("x", .float), ("y", .float)], [[1, 2], [3, 4], [1, 5]], 3⟩

/-- The sample tables above are reachable through the constructor. -/
lemma plEmpty1f_reachable :
    PointList.construct (.pairs [("x", .float)]) dc0 none .float
      = .ok plEmpty1f := by decide

lemma plTwoRows_reachable :
    PointList.construct (.pairs [("x", .float)]) dc0 (some [[1], [2]]) .float
      = .ok plTwoRows := by decide

lemma plEmpty2f_reachable :
    PointList.construct (.pairs [("x", .float), ("y", .float)]) dc0 none .float
      = .ok plEmpty2f := by decide

lemma plThreeRows_reachable :
    PointList.construct (.pairs [("x", .float), ("y", .float)]) dc0
      (some [[1, 2], [3, 4], [1, 5]]) .float = .ok plThreeRows := by decide

lemma grid34_reachable :
    PointListArray.construct (.pairs [("x", .float)]) dc0 (some [3, 4]) .float
      = .ok grid34 := by decide

end Py4DSTEM

namespace Py4DSTEM

/-- Keep the entries of a list whose mask entry is false; entries past
the end of the mask are kept.  This is the reference description of
what deleting the true positions does. -/
def maskKeep : List Row → List Bool → List Row
  | l, [] => l
  | [], _ => []
  | a :: l, b :: m => (if b then [] else [a]) ++ maskKeep l m

/-- Number of true entries of a mask. -/
def countTrue (m : List Bool) : Nat := (m.filter (fun b => b)).length

/-- Whether a field type is one of the atomic numeric dtypes. -/
def DT.isAtomic : DT → Bool
  | .float => true
  | .int => true
  | .struct _ => false

/-- Whether every field of a structured dtype is atomic. -/
def atomicDtype (dt : Dtype) : Bool := dt.all (fun p => p.2.isAtomic)

/-- The documented invariant: the stored counter equals the number of
stored rows. -/
def inv (t : PointList) : Prop := t.length = (t.data.length : Int)

/-- Constraint satisfaction as the specification words it: a pair
keeps rows whose field equals the value, a triple keeps rows with
minval less than or equal to the field and the field less than
maxval. -/
def Pred.holds (dt : Dtype) : Pred → Row → Bool
  | .eq n v, r => fieldVal dt n r == v
  | .range n lo hi, r =>
    decide (lo ≤ fieldVal dt n r) && decide (fieldVal dt n r < hi)

lemma holds_eq_not_violates (dt : Dtype) (p : Pred) (r : Row) :
    Pred.holds dt p r = !(violates dt p r) := by
  cases p with
  | eq n v => simp [Pred.holds, violates, bne]
  | range n lo hi =>
    simp only [Pred.holds, violates, Bool.not_or, ← decide_not, not_lt, not_le]

lemma countTrue_nil : countTrue [] = 0 := rfl

lemma countTrue_cons_false (m : List Bool) :
    countTrue (false :: m) = countTrue m := by
  simp [countTrue]

lemma countTrue_cons_true (m : List Bool) :
    countTrue (true :: m) = countTrue m + 1 := by
  simp [countTrue, List.filter]

lemma countTrue_le (m : List Bool) : countTrue m ≤ m.length :=
  List.length_filter_le _ _

lemma maskKeep_cons_false (a : Row) (l : List Row) (m : List Bool) :
    maskKeep (a :: l) (false :: m) = a :: maskKeep l m := by
  simp [maskKeep]

lemma maskKeep_cons_true (a : Row) (l : List Row) (m : List Bool) :
    maskKeep (a :: l) (true :: m) = maskKeep l m := by
  simp [maskKeep]

lemma trueIndicesAux_cons_false (i : Nat) (m : List Bool) :
    trueIndicesAux i (false :: m) = trueIndicesAux (i + 1) m := by
  simp [trueIndicesAux]

lemma trueIndicesAux_cons_true (i : Nat) (m : List Bool) :
    trueIndicesAux i (true :: m) = i :: trueIndicesAux (i + 1) m := by
  simp [trueIndicesAux]

lemma trueIndicesAux_ge {j : Nat} :
    ∀ (m : List Bool) (i : Nat), j ∈ trueIndicesAux i m → i ≤ j := by
  intro m
  induction m with
  | nil => intro i h; simp [trueIndicesAux] at h
  | cons b m ih =>
    intro i h
    cases b with
    | false =>
      rw [trueIndicesAux_cons_false] at h
      have := ih (i + 1) h; omega
    | true =>
      rw [trueIndicesAux_cons_true] at h
      rcases List.mem_cons.mp h with h | h
      · omega
      · have := ih (i + 1) h; omega

lemma trueIndicesAux_lt {j : Nat} :
    ∀ (m : List Bool) (i : Nat), j ∈ trueIndicesAux i m → j < i + m.length := by
  intro m
  induction m with
  | nil => intro i h; simp [trueIndicesAux] at h
  | cons b m ih =>
    intro i h
    cases b with
    | false =>
      rw [trueIndicesAux_cons_false] at h
      have := ih (i + 1) h
      simp only [List.length_cons]
      omega
    | true =>
      rw [trueIndicesAux_cons_true] at h
      simp only [List.length_cons]
      rcases List.mem_cons.mp h with h | h
      · omega
      · have := ih (i + 1) h; omega

lemma trueIndices_lt {j : Nat} (m : List Bool) :
    j ∈ trueIndices m → j < m.length := by
  intro h
  have := trueIndicesAux_lt (j := j) m 0 h
  omega

lemma trueIndicesAux_length :
    ∀ (m : List Bool) (i : Nat), (trueIndicesAux i m).length = countTrue m := by
  intro m
  induction m with
  | nil => intro i; rfl
  | cons b m ih =>
    intro i
    cases b with
    | false =>
      rw [trueIndicesAux_cons_false, countTrue_cons_false]
      exact ih (i + 1)
    | true =>
      rw [trueIndicesAux_cons_true, countTrue_cons_true]
      simp [ih (i + 1)]

lemma npDeleteAux_nil_idxs :
    ∀ (l : List Row) (i : Nat), npDeleteAux i l [] = l := by
  intro l
  induction l with
  | nil => intro i; rfl
  | cons a l ih => intro i; simp [npDeleteAux, ih]

lemma npDeleteAux_cons_notin (a : Row) (l : List Row) (k : Nat)
    (ys : List Nat) (h : ¬ k ∈ ys) :
    npDeleteAux k (a :: l) ys = a :: npDeleteAux (k + 1) l ys := by
  simp [npDeleteAux, h]

lemma npDeleteAux_cons_in (a : Row) (l : List Row) (k : Nat)
    (ys : List Nat) (h : k ∈ ys) :
    npDeleteAux k (a :: l) ys = npDeleteAux (k + 1) l ys := by
  simp [npDeleteAux, h]

lemma npDeleteAux_drop_lt :
    ∀ (l : List Row) (k x : Nat) (ys : List Nat), x < k →
      npDeleteAux k l (x :: ys) = npDeleteAux k l ys := by
  intro l
  induction l with
  | nil => intro k x ys _; rfl
  | cons a l ih =>
    intro k x ys hx
    have hne : ¬ k = x := by omega
    simp only [npDeleteAux, List.mem_cons, hne, false_or]
    rw [ih (k + 1) x ys (by omega)]

lemma npDelete_trueIndices :
    ∀ (l : List Row) (m : List Bool) (i : Nat),
      npDeleteAux i l (trueIndicesAux i m) = maskKeep l m := by
  intro l
  induction l with
  | nil => intro m i; cases m <;> rfl
  | cons a l2 ih =>
    intro m i
    cases m with
    | nil => simp [trueIndicesAux, maskKeep, npDeleteAux_nil_idxs]
    | cons b m2 =>
      cases b with
      | false =>
        have hnot : ¬ i ∈ trueIndicesAux (i + 1) m2 := by
          intro hmem
          have := trueIndicesAux_ge (j := i) m2 (i + 1) hmem
          omega
        rw [trueIndicesAux_cons_false, maskKeep_cons_false,
          npDeleteAux_cons_notin _ _ _ _ hnot, ih m2 (i + 1)]
      | true =>
        rw [trueIndicesAux_cons_true, maskKeep_cons_true,
          npDeleteAux_cons_in _ _ _ _ (List.mem_cons_self _ _),
          npDeleteAux_drop_lt _ (i + 1) i _ (by omega), ih m2 (i + 1)]

lemma maskKeep_length :
    ∀ (l : List Row) (m : List Bool), m.length = l.length →
      (maskKeep l m).length = l.length - countTrue m := by
  intro l
  induction l with
  | nil =>
    intro m h
    simp only [List.length_nil, List.length_eq_zero] at h
    subst h
    rfl
  | cons a l2 ih =>
    intro m h
    cases m with
    | nil => simp at h
    | cons b m2 =>
      simp only [List.length_cons, Nat.succ.injEq] at h
      have hc := countTrue_le m2
      cases b with
      | false =>
        rw [maskKeep_cons_false, countTrue_cons_false]
        simp only [List.length_cons]
        rw [ih m2 h]
        omega
      | true =>
        rw [maskKeep_cons_true, countTrue_cons_true]
        simp only [List.length_cons]
        rw [ih m2 h]
        omega

lemma maskKeep_map_filter (g : Row → Bool) :
    ∀ (l : List Row), maskKeep l (l.map g) = l.filter (fun x => !(g x)) := by
  intro l
  induction l with
  | nil => rfl
  | cons a l2 ih =>
    cases hg : g a with
    | true =>
      rw [List.map_cons, hg, maskKeep_cons_true, ih]
      simp [List.filter, hg]
    | false =>
      rw [List.map_cons, hg, maskKeep_cons_false, ih]
      simp [List.filter, hg]

lemma countTrue_map_filter (g : Row → Bool) :
    ∀ (l : List Row),
      countTrue (l.map g) + (l.filter (fun x => !(g x))).length = l.length := by
  intro l
  induction l with
  | nil => rfl
  | cons a l2 ih =>
    cases hg : g a with
    | true =>
      rw [List.map_cons, hg, countTrue_cons_true]
      simp [List.filter, hg]
      omega
    | false =>
      rw [List.map_cons, hg, countTrue_cons_false]
      simp [List.filter, hg]
      omega

end Py4DSTEM

namespace Py4DSTEM

lemma add_point_error_state (t : PointList) (r : Row) (e : Err)
    (t2 : PointList) (h : t.add_point r = .error (e, t2)) : t2 = t := by
  unfold PointList.add_point at h
  split at h
  · rcases hc : coerceRow t.dtype r with _ | q
    · rw [hc] at h
      simp only [Except.error.injEq, Prod.mk.injEq] at h
      exact h.2.symm
    · rw [hc] at h
      simp at h
  · simp only [Except.error.injEq, Prod.mk.injEq] at h
    exact h.2.symm

lemma add_point_ok_shape (t : PointList) (r : Row) (t2 : PointList)
    (h : t.add_point r = .ok t2) :
    t2.coordinates = t.coordinates ∧ t2.parentDataCube = t.parentDataCube ∧
      t2.dtype = t.dtype ∧ t2.length = t.length + 1 ∧
      t2.data.length = t.data.length + 1 := by
  unfold PointList.add_point at h
  split at h
  · rcases hc : coerceRow t.dtype r with _ | q
    · rw [hc] at h
      simp at h
    · rw [hc] at h
      simp only [Except.ok.injEq] at h
      subst h
      simp
  · simp at h

lemma npCastVal_atomic (d : DT) (h : d.isAtomic = true) (v : Int) :
    npCastVal d v = some v := by
  cases d with
  | float => rfl
  | int => rfl
  | struct fs => simp [DT.isAtomic] at h

lemma coerceRow_atomic :
    ∀ (dt : Dtype) (r : Row), atomicDtype dt = true →
      r.length = dt.length → coerceRow dt r = some r := by
  intro dt
  induction dt with
  | nil =>
    intro r _ hr
    simp only [List.length_nil, List.length_eq_zero] at hr
    subst hr
    rfl
  | cons p fs ih =>
    intro r hat hr
    obtain ⟨n, d⟩ := p
    cases r with
    | nil => simp at hr
    | cons v vs =>
      simp only [atomicDtype, List.all_cons, Bool.and_eq_true] at hat
      simp only [List.length_cons, Nat.succ.injEq] at hr
      have h1 : npCastVal d v = some v := npCastVal_atomic d hat.1 v
      have h2 : coerceRow fs vs = some vs := by
        apply ih vs _ hr
        simp [atomicDtype, hat.2]
      simp [coerceRow, h1, h2]

lemma add_point_ok_atomic (t : PointList) (r : Row)
    (hat : atomicDtype t.dtype = true) (hr : r.length = t.dtype.length) :
    t.add_point r
      = .ok { t with data := t.data ++ [r], length := t.length + 1 } := by
  unfold PointList.add_point
  rw [if_pos hr, coerceRow_atomic _ _ hat hr]

lemma go_nil (t : PointList) : t.add_pointarray_go [] = .ok t := rfl

lemma go_cons_eq (t : PointList) (r : Row) (rs : List Row) :
    t.add_pointarray_go (r :: rs)
      = match t.add_point r with
        | .ok t2 => t2.add_pointarray_go rs
        | .error e => .error e := rfl

lemma go_cons_ok (t t2 : PointList) (r : Row) (rs : List Row)
    (h : t.add_point r = .ok t2) :
    t.add_pointarray_go (r :: rs) = t2.add_pointarray_go rs := by
  rw [go_cons_eq, h]

lemma go_cons_error (t : PointList) (r : Row) (rs : List Row)
    (p : Err × PointList) (h : t.add_point r = .error p) :
    t.add_pointarray_go (r :: rs) = .error p := by
  rw [go_cons_eq, h]

lemma add_pointarray_nil (t : PointList) :
    t.add_pointarray [] = .error (.indexError, t) := rfl

lemma add_pointarray_cons_eq (t : PointList) (r0 : Row) (rs : List Row) :
    t.add_pointarray (r0 :: rs)
      = if r0.length = t.dtype.length then t.add_pointarray_go (r0 :: rs)
        else .error (.assertionError, t) := rfl

lemma add_pointarray_go_ok_atomic :
    ∀ (rows : List Row) (t : PointList), atomicDtype t.dtype = true →
      (∀ r ∈ rows, r.length = t.dtype.length) →
      t.add_pointarray_go rows
        = .ok { t with data := t.data ++ rows,
                       length := t.length + rows.length } := by
  intro rows
  induction rows with
  | nil =>
    intro t _ _
    simp [go_nil]
  | cons r rs ih =>
    intro t hat hall
    have h0 : r.length = t.dtype.length := hall r (List.mem_cons_self _ _)
    rw [go_cons_ok t _ r rs (add_point_ok_atomic t r hat h0)]
    rw [ih { t with data := t.data ++ [r], length := t.length + 1 } hat
      (fun s hs => hall s (List.mem_cons_of_mem _ hs))]
    rw [show (t.data ++ [r]) ++ rs = t.data ++ r :: rs by simp]
    rw [show t.length + 1 + (rs.length : Int)
        = t.length + ((r :: rs).length : Int) by
      simp only [List.length_cons]
      push_cast
      ring]

lemma add_pointarray_go_inv :
    ∀ (rows : List Row) (t t2 : PointList), inv t →
      t.add_pointarray_go rows = .ok t2 → inv t2 := by
  intro rows
  induction rows with
  | nil =>
    intro t t2 hi h
    rw [go_nil] at h
    obtain rfl := (Except.ok.inj h).symm
    exact hi
  | cons r rs ih =>
    intro t t2 hi h
    rcases ha : t.add_point r with p | ta
    · rw [go_cons_error t r rs p ha] at h
      simp at h
    · rw [go_cons_ok t ta r rs ha] at h
      obtain ⟨_, _, _, hlen, hdlen⟩ := add_point_ok_shape t r ta ha
      apply ih ta t2 _ h
      unfold inv at hi ⊢
      rw [hlen, hdlen, hi]
      push_cast
      ring

lemma add_pointarray_go_error_spec :
    ∀ (rows : List Row) (t : PointList) (e : Err) (t2 : PointList),
      t.add_pointarray_go rows = .error (e, t2) →
      ∃ k, k < rows.length ∧ t.add_pointarray_go (rows.take k) = .ok t2 ∧
        t2.add_point (rows.getD k []) = .error (e, t2) := by
  intro rows
  induction rows with
  | nil =>
    intro t e t2 h
    rw [go_nil] at h
    simp at h
  | cons r rs ih =>
    intro t e t2 h
    rcases ha : t.add_point r with p | ta
    · obtain ⟨e2, t3⟩ := p
      rw [go_cons_error t r rs (e2, t3) ha] at h
      simp only [Except.error.injEq, Prod.mk.injEq] at h
      obtain ⟨he, ht⟩ := h
      have h0 : t3 = t := add_point_error_state t r e2 t3 ha
      refine ⟨0, by simp, ?_, ?_⟩
      · rw [List.take_zero, go_nil, ← ht, h0]
      · show t2.add_point r = .error (e, t2)
        rw [h0] at ha
        rw [← ht, h0, ← he]
        exact ha
    · rw [go_cons_ok t ta r rs ha] at h
      obtain ⟨k, hk, hgo, hstep⟩ := ih ta e t2 h
      refine ⟨k + 1, by simpa using hk, ?_, by simpa using hstep⟩
      simp only [List.take_succ_cons]
      rw [go_cons_ok t ta r _ ha]
      exact hgo

lemma add_pointarray_ok_inv (t : PointList) (rows : List Row)
    (t2 : PointList) (hi : inv t) (h : t.add_pointarray rows = .ok t2) :
    inv t2 := by
  rcases rows with _ | ⟨r0, rs⟩
  · rw [add_pointarray_nil] at h
    simp at h
  · rw [add_pointarray_cons_eq] at h
    split at h
    · exact add_pointarray_go_inv _ t t2 hi h
    · simp at h

lemma mkDtype_pairs (ps : Dtype) (h : ps ≠ []) (d : DT) :
    mkDtype (.pairs ps) d = .ok ps := by
  cases ps with
  | nil => exact absurd rfl h
  | cons p rest => rfl

lemma construct_error (c : Coords) (p : DataCube) (d : Option (List Row))
    (dt : DT) (e : Err) (hm : mkDtype c dt = .error e) :
    PointList.construct c p d dt = .error e := by
  unfold PointList.construct
  rw [hm]

lemma construct_none_ok (c : Coords) (p : DataCube) (dt : DT) (fs : Dtype)
    (hm : mkDtype c dt = .ok fs) :
    PointList.construct c p none dt = .ok ⟨c, p, dt, fs, [], 0⟩ := by
  unfold PointList.construct
  rw [hm]

lemma construct_some_eq (c : Coords) (p : DataCube) (dt : DT) (fs : Dtype)
    (rows : List Row) (hm : mkDtype c dt = .ok fs) :
    PointList.construct c p (some rows) dt
      = match (PointList.mk c p dt fs [] 0).add_pointarray rows with
        | .ok t => .ok t
        | .error (e, _) => .error e := by
  unfold PointList.construct
  rw [hm]

lemma construct_inv (c : Coords) (p : DataCube) (d : Option (List Row))
    (dt : DT) (t : PointList) (h : PointList.construct c p d dt = .ok t) :
    inv t := by
  rcases hm : mkDtype c dt with e | fs
  · rw [construct_error c p d dt e hm] at h
    simp at h
  · rcases d with _ | rows
    · rw [construct_none_ok c p dt fs hm] at h
      obtain rfl := (Except.ok.inj h).symm
      unfold inv
      simp
    · rw [construct_some_eq c p dt fs rows hm] at h
      rcases ha : (PointList.mk c p dt fs [] 0).add_pointarray rows
        with ⟨e2, t3⟩ | t4
      · rw [ha] at h
        simp at h
      · rw [ha] at h
        obtain rfl := (Except.ok.inj h).symm
        exact add_pointarray_ok_inv _ rows _ (by unfold inv; simp) ha

lemma copy_inv (t t2 : PointList) (h : t.copy = .ok t2) : inv t2 :=
  construct_inv _ _ _ _ _ h

lemma copy_ok_spec (t : PointList) (hco : t.coordinates = .pairs t.dtype)
    (hdt : t.dtype ≠ []) (hat : atomicDtype t.dtype = true)
    (hne : t.data ≠ []) (harity : ∀ r ∈ t.data, r.length = t.dtype.length) :
    t.copy = .ok ⟨t.coordinates, t.parentDataCube,
      .struct (FieldList.ofList t.dtype), t.dtype, t.data,
      (t.data.length : Int)⟩ := by
  unfold PointList.copy
  rw [hco]
  rw [construct_some_eq _ _ _ t.dtype t.data (mkDtype_pairs t.dtype hdt _)]
  rcases hd : t.data with _ | ⟨r0, rest⟩
  · exact absurd hd hne
  · have h0 : r0.length = t.dtype.length := by
      apply harity
      rw [hd]
      exact List.mem_cons_self _ _
    have harity2 :
        ∀ s ∈ r0 :: rest,
          s.length = (PointList.mk (Coords.pairs t.dtype) t.parentDataCube
            (DT.struct (FieldList.ofList t.dtype)) t.dtype [] 0).dtype.length := by
      intro s hs
      apply harity
      rw [hd]
      exact hs
    rw [add_pointarray_cons_eq, if_pos h0]
    rw [add_pointarray_go_ok_atomic (r0 :: rest)
      (PointList.mk (Coords.pairs t.dtype) t.parentDataCube
        (DT.struct (FieldList.ofList t.dtype)) t.dtype [] 0) hat harity2]
    simp [hco, ← hd]

lemma zipWith_or_map (f g : Row → Bool) :
    ∀ l : List Row,
      List.zipWith (fun a b => a || b) (l.map f) (l.map g)
        = l.map (fun x => f x || g x) := by
  intro l
  induction l with
  | nil => rfl
  | cons a l2 ih => simp [ih]

lemma replicate_false_eq_map (l : List Row) :
    List.replicate l.length false = l.map (fun _ => false) := by
  induction l with
  | nil => rfl
  | cons a l2 ih =>
    simp only [List.length_cons, List.replicate_succ, List.map_cons, ih]

lemma buildDeletemask_ok (t : PointList) :
    ∀ (ps : List Pred) (f : Row → Bool),
      (∀ p ∈ ps, p.field ∈ fieldNames t.dtype) →
      buildDeletemask t ps (t.data.map f)
        = .ok (t.data.map
            (fun r => f r || ps.any (fun p => violates t.dtype p r))) := by
  intro ps
  induction ps with
  | nil =>
    intro f _
    simp [buildDeletemask]
  | cons p ps2 ih =>
    intro f hall
    simp only [buildDeletemask]
    rw [if_pos (hall p (List.mem_cons_self _ _))]
    rw [zipWith_or_map]
    rw [ih _ (fun q hq => hall q (List.mem_cons_of_mem _ hq))]
    simp [Bool.or_assoc]

lemma remove_points_ok (t : PointList) (mask : List Bool)
    (hin : ∀ i ∈ trueIndices mask, i < t.data.length) :
    t.remove_points mask
      = .ok { t with data := maskKeep t.data mask,
                     length := t.length - countTrue mask } := by
  unfold PointList.remove_points
  rw [if_pos hin]
  have h1 : npDeleteAux 0 t.data (trueIndices mask) = maskKeep t.data mask :=
    npDelete_trueIndices t.data mask 0
  have h2 : (trueIndices mask).length = countTrue mask :=
    trueIndicesAux_length mask 0
  rw [h1, h2]

lemma remove_points_err (t : PointList) (mask : List Bool)
    (hin : ¬ ∀ i ∈ trueIndices mask, i < t.data.length) :
    t.remove_points mask = .error (.indexError, t) := by
  unfold PointList.remove_points
  rw [if_neg hin]

lemma insertRow_length (le : Row → Row → Bool) (r : Row) :
    ∀ l : List Row, (insertRow le r l).length = l.length + 1 := by
  intro l
  induction l with
  | nil => rfl
  | cons s rest ih =>
    simp only [insertRow]
    split
    · simp
    · simp [ih]

lemma npSort_length (le : Row → Row → Bool) :
    ∀ l : List Row, (npSort le l).length = l.length := by
  intro l
  induction l with
  | nil => rfl
  | cons r rest ih => simp [npSort, insertRow_length, ih]

lemma replicate_get? {α : Type} (a : α) :
    ∀ (n k : Nat), (List.replicate n a).get? k
      = if k < n then some a else none := by
  intro n
  induction n with
  | zero => intro k; simp
  | succ n ih =>
    intro k
    cases k with
    | zero => simp [List.replicate]
    | succ k =>
      simp only [List.replicate, List.get?_cons_succ]
      rw [ih k]
      by_cases h : k < n
      · rw [if_pos h, if_pos (by omega)]
      · rw [if_neg h, if_neg (by omega)]

lemma pyIndex_replicate {α : Type} (n : Nat) (a : α) (i : Int) :
    pyIndex (List.replicate n a) i
      = if -(n : Int) ≤ i ∧ i < (n : Int) then .ok a
        else .error .indexError := by
  unfold pyIndex
  simp only [List.length_replicate]
  by_cases h1 : i < 0
  · rw [if_pos h1]
    by_cases h2 : i + (n : Int) < 0
    · rw [if_pos h2, if_neg (by omega)]
    · rw [if_neg h2, replicate_get?]
      rw [if_pos (by omega), if_pos (by constructor <;> omega)]
  · rw [if_neg h1]
    by_cases h2 : i < (n : Int)
    · rw [if_neg (by omega), replicate_get?, if_pos (by omega),
        if_pos (by constructor <;> omega)]
    · rw [if_neg (by omega), replicate_get?, if_neg (by omega),
        if_neg (by omega)]

end Py4DSTEM

namespace Py4DSTEM

lemma keep_eq (dt : Dtype) (preds : List Pred) (r : Row) :
    (!(preds.any (fun p => violates dt p r)))
      = preds.all (fun p => Pred.holds dt p r) := by
  induction preds with
  | nil => rfl
  | cons p ps ih =>
    simp only [List.any_cons, List.all_cons, Bool.not_or, ih,
      holds_eq_not_violates]

lemma get_subpointlist_eq_of (t : PointList) (preds : List Pred)
    (mask : List Bool) (np np2 : PointList)
    (h1 : buildDeletemask t preds (List.replicate t.data.length false)
      = .ok mask)
    (h2 : t.copy = .ok np) (h3 : np.remove_points mask = .ok np2) :
    t.get_subpointlist preds = (t, .ok np2) := by
  simp only [PointList.get_subpointlist, h1, h2, h3]

lemma get_subpointlist_fst (t : PointList) (preds : List Pred) :
    (t.get_subpointlist preds).1 = t := by
  rcases hb : buildDeletemask t preds (List.replicate t.data.length false)
    with e | mask
  · simp only [PointList.get_subpointlist, hb]
  · rcases hc : t.copy with e | np
    · simp only [PointList.get_subpointlist, hb, hc]
    · rcases hr : np.remove_points mask with p | np2
      · obtain ⟨e2, t3⟩ := p
        simp only [PointList.get_subpointlist, hb, hc, hr]
      · simp only [PointList.get_subpointlist, hb, hc, hr]

lemma get_subpointlist_ok_spec (t : PointList) (preds : List Pred)
    (hco : t.coordinates = .pairs t.dtype) (hdt : t.dtype ≠ [])
    (hat : atomicDtype t.dtype = true) (hne : t.data ≠ [])
    (harity : ∀ r ∈ t.data, r.length = t.dtype.length)
    (hfields : ∀ p ∈ preds, p.field ∈ fieldNames t.dtype) :
    t.get_subpointlist preds
      = (t, .ok ⟨t.coordinates, t.parentDataCube,
          .struct (FieldList.ofList t.dtype), t.dtype,
          t.data.filter (fun r => preds.all (fun p => Pred.holds t.dtype p r)),
          ((t.data.filter
            (fun r => preds.all (fun p => Pred.holds t.dtype p r))).length
            : Int)⟩) := by
  have hmask : buildDeletemask t preds (List.replicate t.data.length false)
      = .ok (t.data.map
          (fun r => preds.any (fun p => violates t.dtype p r))) := by
    rw [replicate_false_eq_map]
    rw [buildDeletemask_ok t preds (fun _ => false) hfields]
    simp
  have hcopy := copy_ok_spec t hco hdt hat hne harity
  have hin : ∀ i ∈ trueIndices
      (t.data.map (fun r => preds.any (fun p => violates t.dtype p r))),
      i < t.data.length := by
    intro i hi
    have := trueIndices_lt _ hi
    simpa using this
  have hrem := remove_points_ok
    (⟨t.coordinates, t.parentDataCube, .struct (FieldList.ofList t.dtype),
      t.dtype, t.data, (t.data.length : Int)⟩ : PointList)
    (t.data.map (fun r => preds.any (fun p => violates t.dtype p r))) hin
  rw [get_subpointlist_eq_of t preds _ _ _ hmask hcopy hrem]
  have hmk : maskKeep t.data
      (t.data.map (fun r => preds.any (fun p => violates t.dtype p r)))
      = t.data.filter
          (fun r => preds.all (fun p => Pred.holds t.dtype p r)) := by
    rw [maskKeep_map_filter]
    simp only [keep_eq]
  have hcount : (t.data.length : Int)
      - countTrue (t.data.map
          (fun r => preds.any (fun p => violates t.dtype p r)))
      = ((t.data.filter
          (fun r => preds.all (fun p => Pred.holds t.dtype p r))).length
          : Int) := by
    have h5 := countTrue_map_filter
      (fun r => preds.any (fun p => violates t.dtype p r)) t.data
    have h6 : (t.data.filter
        (fun x => !((fun r => preds.any (fun p => violates t.dtype p r)) x)))
        = t.data.filter
            (fun r => preds.all (fun p => Pred.holds t.dtype p r)) := by
      simp only [keep_eq]
    rw [h6] at h5
    omega
  rw [Prod.mk.injEq]
  refine ⟨rfl, ?_⟩
  rw [Except.ok.injEq, PointList.mk.injEq]
  refine ⟨rfl, rfl, rfl, rfl, hmk, hcount⟩

end Py4DSTEM

namespace Py4DSTEM

lemma sort_asc_of_mem (t : PointList) (c : String)
    (h : c ∈ fieldNames t.dtype) :
    t.sort c "ascending"
      = .ok { t with data := npSort (rowLe (fieldIndex c t.dtype)) t.data } := by
  unfold PointList.sort
  rw [if_pos h]
  simp

lemma sort_desc_of_mem (t : PointList) (c : String)
    (h : c ∈ fieldNames t.dtype) :
    t.sort c "descending"
      = .ok { t with
          data := (npSort (rowLe (fieldIndex c t.dtype)) t.data).reverse } := by
  unfold PointList.sort
  rw [if_pos h]
  simp

lemma maskKeep_length_aux :
    ∀ (l : List Row) (m : List Bool) (k : Nat),
      (∀ i ∈ trueIndicesAux k m, i < k + l.length) →
      (maskKeep l m).length + countTrue m = l.length := by
  intro l
  induction l with
  | nil =>
    intro m k hin
    have h0 : trueIndicesAux k m = [] := by
      cases hm : trueIndicesAux k m with
      | nil => rfl
      | cons i0 rest =>
        exfalso
        have hmem : i0 ∈ trueIndicesAux k m := by
          rw [hm]
          exact List.mem_cons_self _ _
        have h1 := trueIndicesAux_ge m k hmem
        have h2 := hin i0 hmem
        simp at h2
        omega
    have h1 : countTrue m = 0 := by
      have := trueIndicesAux_length m k
      rw [h0] at this
      simpa using this.symm
    have h2 : (maskKeep [] m).length = 0 := by
      cases m <;> rfl
    simp only [List.length_nil]
    omega
  | cons a l2 ih =>
    intro m k hin
    cases m with
    | nil => simp [maskKeep, countTrue]
    | cons b m2 =>
      cases b with
      | false =>
        rw [maskKeep_cons_false, countTrue_cons_false]
        have := ih m2 (k + 1) (by
          intro i hi
          have := hin i (by rw [trueIndicesAux_cons_false]; exact hi)
          simp at this ⊢
          omega)
        simp only [List.length_cons]
        omega
      | true =>
        rw [maskKeep_cons_true, countTrue_cons_true]
        have := ih m2 (k + 1) (by
          intro i hi
          have := hin i (by
            rw [trueIndicesAux_cons_true]
            exact List.mem_cons_of_mem _ hi)
          simp at this ⊢
          omega)
        simp only [List.length_cons]
        omega

lemma maskKeep_length_inrange (l : List Row) (m : List Bool)
    (hin : ∀ i ∈ trueIndices m, i < l.length) :
    (maskKeep l m).length + countTrue m = l.length := by
  apply maskKeep_length_aux l m 0
  intro i hi
  have := hin i hi
  omega

lemma remove_points_ok_inv (t : PointList) (mask : List Bool)
    (t2 : PointList) (hi : inv t) (h : t.remove_points mask = .ok t2) :
    inv t2 := by
  unfold PointList.remove_points at h
  split at h
  case isTrue hcond =>
    obtain rfl := (Except.ok.inj h).symm
    have h1 := maskKeep_length_inrange t.data mask hcond
    have h2 : npDeleteAux 0 t.data (trueIndices mask) = maskKeep t.data mask :=
      npDelete_trueIndices t.data mask 0
    have h3 : (trueIndices mask).length = countTrue mask :=
      trueIndicesAux_length mask 0
    unfold inv at hi ⊢
    simp only [h2, h3]
    omega
  case isFalse => simp at h

lemma sort_ok_inv (t : PointList) (c o : String) (t2 : PointList)
    (hi : inv t) (h : t.sort c o = .ok t2) : inv t2 := by
  unfold PointList.sort at h
  split at h
  · split at h
    · split at h
      · obtain rfl := (Except.ok.inj h).symm
        unfold inv at hi ⊢
        simp only [npSort_length]
        exact hi
      · obtain rfl := (Except.ok.inj h).symm
        unfold inv at hi ⊢
        simp only [List.length_reverse, npSort_length]
        exact hi
    · simp at h
  · simp at h

lemma get_subpointlist_ok_inv (t : PointList) (preds : List Pred)
    (res : PointList) (h : (t.get_subpointlist preds).2 = .ok res) :
    inv res := by
  rcases hb : buildDeletemask t preds (List.replicate t.data.length false)
    with e | mask
  · simp only [PointList.get_subpointlist, hb] at h
    exact absurd h (by simp)
  · rcases hc : t.copy with e | np
    · simp only [PointList.get_subpointlist, hb, hc] at h
      exact absurd h (by simp)
    · rcases hr : np.remove_points mask with p | np2
      · obtain ⟨e2, t3⟩ := p
        simp only [PointList.get_subpointlist, hb, hc, hr] at h
        exact absurd h (by simp)
      · simp only [PointList.get_subpointlist, hb, hc, hr,
          Except.ok.injEq] at h
        rw [← h]
        exact remove_points_ok_inv np mask np2 (copy_inv t np hc) hr

end Py4DSTEM

namespace Py4DSTEM

lemma plarray_construct_pair_ok (coords : Coords) (p : DataCube) (dt : DT)
    (R C : Int) (cell : PointList)
    (hcell : PointList.construct coords p none dt = .ok cell) :
    PointListArray.construct coords p (some [R, C]) dt
      = .ok ⟨coords, p, dt, (R, C),
          List.replicate R.toNat (List.replicate C.toNat cell)⟩ := by
  simp only [PointListArray.construct, hcell]
  rfl

lemma plarray_construct_badlen (coords : Coords) (p : DataCube) (dt : DT)
    (l : List Int) (h : l.length ≠ 2) :
    PointListArray.construct coords p (some l) dt
      = .error .assertionError := by
  simp only [PointListArray.construct, if_neg h]

end Py4DSTEM

namespace Py4DSTEM

/-- C1 counterexample: `remove_rows` does not fail when the mask length
disagrees with the row count.  On a table with two rows and the
one-entry mask `[true]` the call succeeds, deleting row 0 and
decrementing the counter, instead of raising a length-mismatch
error. -/
theorem remove_rows_no_length_check :
    (([true] : List Bool).length : Int) ≠ plTwoRows.length ∧
    plTwoRows.remove_points [true]
      = .ok ⟨.pairs [("x", .float)], dc0, .float, [("x", .float)],
          [[2]], 1⟩ := by
  constructor
  · decide
  · decide

/-- C1 amended: `remove_rows` performs no mask-length check.  Whenever
every true position of the mask is a valid row index (in particular
whenever the mask length equals the row count) the call succeeds,
deleting exactly the rows at the true positions, keeping the remaining
rows in order, and decrementing `count` by the number of true entries
of the mask; when some true position is out of range the call fails
and leaves the table unchanged. -/
theorem remove_rows_spec (t : PointList) (mask : List Bool) :
    (mask.length = t.data.length →
      t.remove_points mask
        = .ok { t with data := maskKeep t.data mask,
                       length := t.length - countTrue mask }) ∧
    ((∀ i ∈ trueIndices mask, i < t.data.length) →
      t.remove_points mask
        = .ok { t with data := maskKeep t.data mask,
                       length := t.length - countTrue mask }) ∧
    ((¬ ∀ i ∈ trueIndices mask, i < t.data.length) →
      t.remove_points mask = .error (.indexError, t)) := by
  have hok : (∀ i ∈ trueIndices mask, i < t.data.length) →
      t.remove_points mask
        = .ok { t with data := maskKeep t.data mask,
                       length := t.length - countTrue mask } := by
    intro hin
    exact remove_points_ok t mask hin
  refine ⟨?_, hok, remove_points_err t mask⟩
  intro hlen
  apply hok
  intro i hi
  have := trueIndices_lt mask hi
  omega

/-- C1 witness: applying the amended statement to a two-row table and
the equal-length mask `[false, true]` deletes exactly row 1. -/
theorem remove_rows_spec_witness :
    plTwoRows.remove_points [false, true]
      = .ok ⟨.pairs [("x", .float)], dc0, .float, [("x", .float)],
          [[1]], 1⟩ := by
  have h := (remove_rows_spec plTwoRows [false, true]).1 (by decide)
  exact h.trans (by decide)

/-- C2 counterexample: on a grid of shape (3, 4), `get(-1, 0)` succeeds
and returns the cell of the last grid row instead of failing with an
index error, because Python list indexing wraps negative indices. -/
theorem get_grid_negative_index_succeeds :
    grid34.shape = (3, 4) ∧ grid34.get_pointlist (-1) 0 = .ok plEmpty1f := by
  constructor
  · rfl
  · decide

/-- C2 amended: on a grid constructed with shape (R, C), `get(i, j)`
returns the cell table exactly when `-R <= i < R` and `-C <= j < C`
(negative in-range indices wrap by R resp. C, Python style) and fails
with IndexError otherwise; in particular it returns the cell for all
`0 <= i < R`, `0 <= j < C`. -/
theorem get_pointlist_wrap_spec (coords : Coords) (p : DataCube) (dt : DT)
    (R C : Int) (g : PointListArray) (cell : PointList)
    (hR : 0 ≤ R) (hC : 0 ≤ C)
    (hg : PointListArray.construct coords p (some [R, C]) dt = .ok g)
    (hcell : PointList.construct coords p none dt = .ok cell)
    (i j : Int) :
    g.get_pointlist i j
      = if -R ≤ i ∧ i < R ∧ -C ≤ j ∧ j < C then .ok cell
        else .error .indexError := by
  rw [plarray_construct_pair_ok coords p dt R C cell hcell] at hg
  obtain rfl := (Except.ok.inj hg).symm
  unfold PointListArray.get_pointlist
  have hrow : pyIndex
      (List.replicate R.toNat (List.replicate C.toNat cell)) i
      = if -R ≤ i ∧ i < R then .ok (List.replicate C.toNat cell)
        else .error .indexError := by
    rw [pyIndex_replicate, Int.toNat_of_nonneg hR]
  by_cases h1 : -R ≤ i ∧ i < R
  · rw [show (PointListArray.mk coords p dt (R, C)
        (List.replicate R.toNat (List.replicate C.toNat cell))).pointlists
        = List.replicate R.toNat (List.replicate C.toNat cell) from rfl,
      hrow, if_pos h1]
    show pyIndex (List.replicate C.toNat cell) j = _
    rw [pyIndex_replicate, Int.toNat_of_nonneg hC]
    by_cases h2 : -C ≤ j ∧ j < C
    · rw [if_pos h2, if_pos ⟨h1.1, h1.2, h2.1, h2.2⟩]
    · rw [if_neg h2, if_neg (by tauto)]
  · rw [show (PointListArray.mk coords p dt (R, C)
        (List.replicate R.toNat (List.replicate C.toNat cell))).pointlists
        = List.replicate R.toNat (List.replicate C.toNat cell) from rfl,
      hrow, if_neg h1]
    show (Except.error Err.indexError : Except Err PointList) = _
    rw [if_neg (by tauto)]

/-- C2 witness: on the concrete (3, 4) grid, `get(2, 3)` returns the
cell and `get(3, 0)` fails. -/
theorem get_pointlist_wrap_spec_witness :
    grid34.get_pointlist 2 3 = .ok plEmpty1f ∧
    grid34.get_pointlist 3 0 = .error .indexError := by
  constructor
  · have h := get_pointlist_wrap_spec (.pairs [("x", .float)]) dc0 .float
      3 4 grid34 plEmpty1f (by decide) (by decide) (by decide) (by decide) 2 3
    rw [h]
    decide
  · have h := get_pointlist_wrap_spec (.pairs [("x", .float)]) dc0 .float
      3 4 grid34 plEmpty1f (by decide) (by decide) (by decide) (by decide) 3 0
    rw [h]
    decide

/-- C3 counterexample: `append_rows` on an empty two-field table with
the batch `[[1, 2], [3]]` fails at the second row but has already
appended the first row: the table reported at the failure holds one row
and counter 1, so the call is not atomic. -/
theorem append_rows_partial_mutation :
    plEmpty2f.add_pointarray [[1, 2], [3]]
      = .error (.assertionError,
          ⟨.pairs [("x", .float), ("y", .float)], dc0, .float,
           [("x", .float), ("y", .float)], [[1, 2]], 1⟩) ∧
    (⟨.pairs [("x", .float), ("y", .float)], dc0, .float,
      [("x", .float), ("y", .float)], [[1, 2]], 1⟩ : PointList)
      ≠ plEmpty2f := by
  constructor
  · decide
  · decide

/-- C3 amended: `append_rows` leaves the table unchanged only when the
batch is empty or the first row fails the arity check; in general a
failure at row k leaves the first k rows of the batch appended (the
reported state is the successful append of a batch prefix followed by
a failing `append_row` that does not mutate). -/
theorem append_rows_failure_spec :
    (∀ t : PointList, t.add_pointarray [] = .error (.indexError, t)) ∧
    (∀ (t : PointList) (r0 : Row) (rs : List Row),
      r0.length ≠ t.dtype.length →
      t.add_pointarray (r0 :: rs) = .error (.assertionError, t)) ∧
    (∀ (t : PointList) (rows : List Row) (e : Err) (t2 : PointList),
      t.add_pointarray rows = .error (e, t2) →
      t2 = t ∨ ∃ k, k < rows.length ∧
        t.add_pointarray_go (rows.take k) = .ok t2 ∧
        t2.add_point (rows.getD k []) = .error (e, t2)) := by
  refine ⟨add_pointarray_nil, ?_, ?_⟩
  · intro t r0 rs h
    rw [add_pointarray_cons_eq, if_neg h]
  · intro t rows e t2 h
    rcases rows with _ | ⟨r0, rs⟩
    · rw [add_pointarray_nil] at h
      simp only [Except.error.injEq, Prod.mk.injEq] at h
      exact Or.inl h.2.symm
    · rw [add_pointarray_cons_eq] at h
      split at h
      · exact Or.inr (add_pointarray_go_error_spec (r0 :: rs) t e t2 h)
      · simp only [Except.error.injEq, Prod.mk.injEq] at h
        exact Or.inl h.2.symm

/-- C3 witness: a batch whose first row has the wrong arity leaves the
table unchanged, and the empty batch fails with the table unchanged. -/
theorem append_rows_failure_spec_witness :
    plEmpty2f.add_pointarray [[9]] = .error (.assertionError, plEmpty2f) ∧
    plEmpty1f.add_pointarray [] = .error (.indexError, plEmpty1f) := by
  constructor
  · exact append_rows_failure_spec.2.1 plEmpty2f [9] [] (by decide)
  · exact append_rows_failure_spec.1 plEmpty1f

end Py4DSTEM

namespace Py4DSTEM

/-- C4 counterexample: `filter` on an empty table raises instead of
returning an empty result table, although the predicate field exists
in the schema: the internal `copy` reads element 0 of the empty bulk
data.  The claim as stated therefore fails for empty tables. -/
theorem filter_empty_table_fails :
    ("x" ∈ fieldNames plEmpty1f.dtype) ∧
    (plEmpty1f.get_subpointlist [.eq "x" 1]).2 = .error .indexError := by
  constructor
  · decide
  · decide

/-- C4 amended: for every table with at least one row, whose schema was
given as (name, type) pairs of atomic dtypes and whose rows have the
schema arity, and every predicate list over existing fields, `filter`
returns a table whose rows are exactly the rows satisfying every
predicate (pairs keep field == value, triples keep min <= field < max),
in their original relative order; on an empty table the call fails. -/
theorem filter_rows_spec (t : PointList) (preds : List Pred)
    (hco : t.coordinates = .pairs t.dtype) (hdt : t.dtype ≠ [])
    (hat : atomicDtype t.dtype = true) (hne : t.data ≠ [])
    (harity : ∀ r ∈ t.data, r.length = t.dtype.length)
    (hfields : ∀ p ∈ preds, p.field ∈ fieldNames t.dtype) :
    (t.get_subpointlist preds).2
      = .ok ⟨t.coordinates, t.parentDataCube,
          .struct (FieldList.ofList t.dtype), t.dtype,
          t.data.filter
            (fun r => preds.all (fun p => Pred.holds t.dtype p r)),
          ((t.data.filter
            (fun r => preds.all (fun p => Pred.holds t.dtype p r))).length
            : Int)⟩ := by
  rw [get_subpointlist_ok_spec t preds hco hdt hat hne harity hfields]

/-- C4 witness: on the spec example table with rows (1,2), (3,4), (1,5)
the filter x == 1 keeps exactly (1,2) and (1,5), in order, count 2. -/
theorem filter_rows_spec_witness :
    (plThreeRows.get_subpointlist [.eq "x" 1]).2
      = .ok ⟨.pairs [("x", .float), ("y", .float)], dc0,
          .struct (.cons "x" .float (.cons "y" .float .nil)),
          [("x", .float), ("y", .float)], [[1, 2], [1, 5]], 2⟩ := by
  have h := filter_rows_spec plThreeRows [.eq "x" 1] (by decide) (by decide)
    (by decide) (by decide) (by decide) (by decide)
  exact h.trans (by decide)

/-- C5 confirmed: whenever sorting by a field succeeds in both orders,
the descending row sequence is exactly the reverse of the ascending
one, element for element (the code computes the same sorted array and
reverses it wholesale, so tie groups flip too). -/
theorem sort_descending_reverse_ascending (t : PointList) (c : String)
    (ta td : PointList) (h1 : t.sort c "ascending" = .ok ta)
    (h2 : t.sort c "descending" = .ok td) :
    td.data = ta.data.reverse := by
  by_cases hc : c ∈ fieldNames t.dtype
  · rw [sort_asc_of_mem t c hc] at h1
    rw [sort_desc_of_mem t c hc] at h2
    obtain rfl := (Except.ok.inj h1).symm
    obtain rfl := (Except.ok.inj h2).symm
    rfl
  · unfold PointList.sort at h1
    rw [if_neg hc] at h1
    simp at h1

/-- C5 witness: sorting the concrete two-row table by x in both orders
yields reversed row sequences. -/
theorem sort_descending_reverse_ascending_witness :
    (⟨.pairs [("x", .float)], dc0, .float, [("x", .float)],
      [[2], [1]], 2⟩ : PointList).data
      = (⟨.pairs [("x", .float)], dc0, .float, [("x", .float)],
          [[1], [2]], 2⟩ : PointList).data.reverse :=
  sort_descending_reverse_ascending plTwoRows "x"
    ⟨.pairs [("x", .float)], dc0, .float, [("x", .float)], [[1], [2]], 2⟩
    ⟨.pairs [("x", .float)], dc0, .float, [("x", .float)], [[2], [1]], 2⟩
    (by decide) (by decide)

/-- C6 confirmed: `merge` with equal dtypes appends the rows of the
argument, in their order, to the end of the receiver and adds the
counters; with unequal dtypes it fails with the receiver unchanged.
The argument table is only read (the model returns it untouched by
construction, mirroring the source, which never assigns to it). -/
theorem merge_spec (a b : PointList) :
    (a.dtype = b.dtype →
      a.add_pointlist b
        = .ok { a with data := a.data ++ b.data,
                       length := a.length + b.length }) ∧
    (a.dtype ≠ b.dtype →
      a.add_pointlist b = .error (.assertionError, a)) := by
  constructor
  · intro h
    unfold PointList.add_pointlist
    rw [if_pos h]
  · intro h
    unfold PointList.add_pointlist
    rw [if_neg h]

/-- C6 witness: merging the two-row table with itself gives four rows
and counter 4; merging tables of different schemas fails and reports
the unchanged receiver. -/
theorem merge_spec_witness :
    plTwoRows.add_pointlist plTwoRows
      = .ok ⟨.pairs [("x", .float)], dc0, .float, [("x", .float)],
          [[1], [2], [1], [2]], 4⟩ ∧
    plTwoRows.add_pointlist plEmpty2f
      = .error (.assertionError, plTwoRows) := by
  constructor
  · exact ((merge_spec plTwoRows plTwoRows).1 rfl).trans (by decide)
  · exact (merge_spec plTwoRows plEmpty2f).2 (by decide)

/-- C7 counterexample: `filter` on an empty two-field table raises
instead of returning a new table, although the predicate field exists;
hence the claim that a new table is returned for every source table
fails (the source itself is still left unchanged). -/
theorem filter_empty_table_no_result :
    ("y" ∈ fieldNames plEmpty2f.dtype) ∧
    (plEmpty2f.get_subpointlist [.range "y" 0 5]).2 = .error .indexError := by
  constructor
  · decide
  · decide

/-- C7 amended: `filter` never mutates the source (the receiver state
at return or raise always equals the input), and whenever it returns a
table (source nonempty, pair-form schema of atomic dtypes, rows of
schema arity, fields present) the result is a fresh table with the
same structured dtype and the same owner as the source. -/
theorem filter_frame_spec :
    (∀ (t : PointList) (preds : List Pred),
      (t.get_subpointlist preds).1 = t) ∧
    (∀ (t : PointList) (preds : List Pred),
      t.coordinates = .pairs t.dtype → t.dtype ≠ [] →
      atomicDtype t.dtype = true → t.data ≠ [] →
      (∀ r ∈ t.data, r.length = t.dtype.length) →
      (∀ p ∈ preds, p.field ∈ fieldNames t.dtype) →
      ∀ res : PointList, (t.get_subpointlist preds).2 = .ok res →
        res.dtype = t.dtype ∧ res.parentDataCube = t.parentDataCube ∧
        res.coordinates = t.coordinates) := by
  refine ⟨get_subpointlist_fst, ?_⟩
  intro t preds hco hdt hat hne harity hfields res hres
  rw [get_subpointlist_ok_spec t preds hco hdt hat hne harity hfields] at hres
  simp only [Except.ok.injEq] at hres
  rw [← hres]
  exact ⟨rfl, rfl, rfl⟩

/-- C7 witness: on the spec example table, filtering 3 <= y < 6 leaves
the source untouched and yields a result with the same dtype and
owner. -/
theorem filter_frame_spec_witness :
    (plThreeRows.get_subpointlist [.range "y" 3 6]).1 = plThreeRows ∧
    (⟨.pairs [("x", .float), ("y", .float)], dc0,
      .struct (.cons "x" .float (.cons "y" .float .nil)),
      [("x", .float), ("y", .float)], [[3, 4], [1, 5]], 2⟩
        : PointList).dtype = plThreeRows.dtype := by
  constructor
  · exact filter_frame_spec.1 plThreeRows [.range "y" 3 6]
  · exact (filter_frame_spec.2 plThreeRows [.range "y" 3 6] (by decide)
      (by decide) (by decide) (by decide) (by decide) (by decide)
      ⟨.pairs [("x", .float), ("y", .float)], dc0,
        .struct (.cons "x" .float (.cons "y" .float .nil)),
        [("x", .float), ("y", .float)], [[3, 4], [1, 5]], 2⟩
      (by decide)).1

/-- C8 confirmed: the invariant count == number of stored rows holds
after construction and is preserved by every operation when it
returns: append_row, append_rows, merge, sort_by, filter (for the
returned table), remove_rows under its mask-length precondition, and
duplicate. -/
theorem count_invariant :
    (∀ (c : Coords) (p : DataCube) (d : Option (List Row)) (dt : DT)
      (t : PointList), PointList.construct c p d dt = .ok t → inv t) ∧
    (∀ (t : PointList) (r : Row) (t2 : PointList), inv t →
      t.add_point r = .ok t2 → inv t2) ∧
    (∀ (t : PointList) (rows : List Row) (t2 : PointList), inv t →
      t.add_pointarray rows = .ok t2 → inv t2) ∧
    (∀ (a b c2 : PointList), inv a → inv b →
      a.add_pointlist b = .ok c2 → inv c2) ∧
    (∀ (t : PointList) (c o : String) (t2 : PointList), inv t →
      t.sort c o = .ok t2 → inv t2) ∧
    (∀ (t : PointList) (preds : List Pred) (res : PointList),
      (t.get_subpointlist preds).2 = .ok res → inv res) ∧
    (∀ (t : PointList) (mask : List Bool) (t2 : PointList), inv t →
      mask.length = t.data.length → t.remove_points mask = .ok t2 →
      inv t2) ∧
    (∀ (t t2 : PointList), t.copy = .ok t2 → inv t2) := by
  refine ⟨construct_inv, ?_, ?_, ?_, sort_ok_inv, get_subpointlist_ok_inv,
    ?_, copy_inv⟩
  · intro t r t2 hi h
    obtain ⟨_, _, _, hlen, hdlen⟩ := add_point_ok_shape t r t2 h
    unfold inv at hi ⊢
    rw [hlen, hdlen, hi]
    push_cast
    ring
  · intro t rows t2 hi h
    exact add_pointarray_ok_inv t rows t2 hi h
  · intro a b c2 hia hib h
    unfold PointList.add_pointlist at h
    split at h
    · obtain rfl := (Except.ok.inj h).symm
      unfold inv at hia hib ⊢
      simp only [List.length_append]
      rw [hia, hib]
      push_cast
      ring
    · simp at h
  · intro t mask t2 hi _ h
    exact remove_points_ok_inv t mask t2 hi h

/-- C8 witness: the invariant holds for the concretely constructed
tables, via the construction clause. -/
theorem count_invariant_witness : inv plTwoRows ∧ inv plThreeRows := by
  constructor
  · exact count_invariant.1 (.pairs [("x", .float)]) dc0 (some [[1], [2]])
      .float plTwoRows (by decide)
  · exact count_invariant.1 (.pairs [("x", .float), ("y", .float)]) dc0
      (some [[1, 2], [3, 4], [1, 5]]) .float plThreeRows (by decide)

/-- C9 counterexample: the grid constructor accepts the explicit shape
(0, 3), which is not a pair of positive integers, and returns an empty
grid instead of failing. -/
theorem grid_shape_zero_accepted :
    PointListArray.construct (.pairs [("x", .float)]) dc0 (some [0, 3]) .float
      = .ok ⟨.pairs [("x", .float)], dc0, .float, (0, 3), []⟩ := by
  decide

/-- C9 amended: an explicit shape argument is only checked to be a
tuple of length two (no positivity or integrality check); with any
two integer entries (R, C) construction succeeds and allocates
max(R, 0) grid rows of max(C, 0) cells, every cell an empty table
built from the given schema and owner; a tuple of any other length
fails. -/
theorem grid_construct_shape_spec :
    (∀ (coords : Coords) (p : DataCube) (dt : DT) (l : List Int),
      l.length ≠ 2 →
      PointListArray.construct coords p (some l) dt
        = .error .assertionError) ∧
    (∀ (coords : Coords) (p : DataCube) (dt : DT) (R C : Int)
      (cell : PointList),
      PointList.construct coords p none dt = .ok cell →
      PointListArray.construct coords p (some [R, C]) dt
        = .ok ⟨coords, p, dt, (R, C),
            List.replicate R.toNat (List.replicate C.toNat cell)⟩) := by
  constructor
  · intro coords p dt l h
    exact plarray_construct_badlen coords p dt l h
  · intro coords p dt R C cell hcell
    exact plarray_construct_pair_ok coords p dt R C cell hcell

/-- C9 witness: a length-1 shape fails; the shape (3, 4) allocates the
3 x 4 grid of empty cells. -/
theorem grid_construct_shape_spec_witness :
    PointListArray.construct (.pairs [("x", .float)]) dc0 (some [5]) .float
      = .error .assertionError ∧
    PointListArray.construct (.pairs [("x", .float)]) dc0 (some [3, 4]) .float
      = .ok grid34 := by
  constructor
  · exact grid_construct_shape_spec.1 _ dc0 .float [5] (by decide)
  · exact (grid_construct_shape_spec.2 _ dc0 .float 3 4 plEmpty1f
      (by decide)).trans (by decide)

/-- C10 confirmed: `append_rows` with an empty batch always fails
(reading element 0 of the batch) and leaves the table unchanged;
consequently constructing with an empty initial bulk-data sequence
fails, while omitting the bulk data yields an empty table with
count 0. -/
theorem empty_batch_spec :
    (∀ t : PointList, t.add_pointarray [] = .error (.indexError, t)) ∧
    (∀ (c : Coords) (p : DataCube) (dt : DT),
      (PointList.construct c p (some []) dt).isOk = false) ∧
    (∀ (c : Coords) (p : DataCube) (dt : DT) (t : PointList),
      PointList.construct c p none dt = .ok t →
        t.data = [] ∧ t.length = 0) := by
  refine ⟨add_pointarray_nil, ?_, ?_⟩
  · intro c p dt
    rcases hm : mkDtype c dt with e | fs
    · rw [construct_error c p _ dt e hm]
      rfl
    · rw [construct_some_eq c p dt fs [] hm, add_pointarray_nil]
      rfl
  · intro c p dt t h
    rcases hm : mkDtype c dt with e | fs
    · rw [construct_error c p _ dt e hm] at h
      simp at h
    · rw [construct_none_ok c p dt fs hm] at h
      obtain rfl := (Except.ok.inj h).symm
      exact ⟨rfl, rfl⟩

/-- C10 witness: applied to the concrete one-field schema. -/
theorem empty_batch_spec_witness :
    plEmpty1f.add_pointarray [] = .error (.indexError, plEmpty1f) ∧
    (PointList.construct (.pairs [("x", .float)]) dc0 (some []) .float).isOk
      = false ∧
    plEmpty1f.data = [] ∧ plEmpty1f.length = 0 := by
  refine ⟨empty_batch_spec.1 plEmpty1f,
    empty_batch_spec.2.1 (.pairs [("x", .float)]) dc0 .float,
    empty_batch_spec.2.2 (.pairs [("x", .float)]) dc0 .float plEmpty1f
      (by decide)⟩

end Py4DSTEM
